/-
Verification of the adlab-planning route-planning / control stack.

This file gives a shallow embedding, in Lean 4 over Mathlib's real numbers,
of the algorithmic core of the repository:

* `route_planner/hybrid_a_star_route_planner.py` (Hybrid A* grid search),
* `route_planner/informed_trrt_star_planner.py` (Informed TRRT* tree planner),
* `control/mpc_basic.py` and `controller/mpc_controller.py` (MPC controllers),

and proves/refutes the frozen specification claims about them.

Modelling conventions:
* Python floats are modelled as real numbers (`ℝ`); `float("inf")` and
  arithmetic with it is modelled with `EReal` where the code relies on it.
* `math.atan2 y x` is modelled by `Complex.arg ⟨x, y⟩`, Mathlib's two-argument
  arctangent (identical piecewise definition for real inputs).
* Fallible code (Python exceptions) is modelled with `Option`/`Except`;
  potentially diverging loops are modelled with an explicit fuel parameter,
  `none` meaning that the loop did not return within the given fuel.
* Python dicts are modelled as insertion-ordered association lists with the
  exact update/lookup/iteration-order semantics of CPython dicts.
* Code of the repository that is not part of the provided sources
  (`route_planner/geometry.py`, `utils.py`, `controller/base_controller.py`,
  the `InformedRRTStar` parent class and the `ThetaStar` seed planner) is
  either modelled from the specification (marked `Modelled from the spec:`)
  or abstracted as an explicit capability parameter, as the specification
  itself treats those parts as external collaborators.
-/
import Mathlib

open Real

/-! ## Shared geometry primitives -/

/-- Two-argument arctangent, `math.atan2 y x`, modelled as the argument of the
complex number `x + y*I`; Mathlib's `Complex.arg` is the same piecewise
arctangent function of `(y, x)` used by the C library. -/
noncomputable def atan2 (y x : ℝ) : ℝ := Complex.arg ⟨x, y⟩

/-- `HybridAStarRoutePlanner.change_radians_range`: normalize an angle into
`(-π, π]` by `atan2(sin angle, cos angle)`. -/
noncomputable def change_radians_range (angle : ℝ) : ℝ :=
  atan2 (Real.sin angle) (Real.cos angle)

/-- Euclidean distance between two points, `math.hypot` / `np.linalg.norm`
of the difference. -/
noncomputable def euclid (x1 y1 x2 y2 : ℝ) : ℝ :=
  Real.sqrt ((x1 - x2) ^ 2 + (y1 - y2) ^ 2)

/-- Python's built-in `round` (round half to even), used for the discrete
grid coordinates of the Hybrid A* nodes. -/
noncomputable def pyRound (x : ℝ) : ℤ :=
  if x - ⌊x⌋ < 1 / 2 then ⌊x⌋
  else if 1 / 2 < x - ⌊x⌋ then ⌊x⌋ + 1
  else if Even ⌊x⌋ then ⌊x⌋ else ⌊x⌋ + 1

/-! ## Hybrid A* route planner (`hybrid_a_star_route_planner.py`) -/

/-- `route_planner.geometry.Pose`. Modelled from the spec: `geometry.py` is
not among the provided sources; the spec gives `Pose = (x, y, theta)`,
continuous position and heading. -/
structure Pose2 where
  x : ℝ
  y : ℝ
  theta : ℝ

/-- `hybrid_a_star_route_planner.Node`: pose, rounded grid coordinates,
accumulated cost, steering used to reach it, and the parent's grid index
(`-1` meaning no parent). -/
structure HNode where
  pose : Pose2
  discrete_x : ℤ
  discrete_y : ℤ
  cost : ℝ
  steering : ℝ
  parent_node_index : ℤ

/-- Constructor of `hybrid_a_star_route_planner.Node`: the discrete
coordinates are the rounded pose coordinates. -/
noncomputable def mkHNode (pose : Pose2) (cost steering : ℝ) (parent : ℤ) : HNode :=
  ⟨pose, pyRound pose.x, pyRound pose.y, cost, steering, parent⟩

/-- `HybridAStarRoutePlanner.wheelbase = 2.7`. -/
noncomputable def wheelbase : ℝ := 2.7

/-- `HybridAStarRoutePlanner.calculate_next_node`: the kinematic arc update.
`theta = change_radians_range(theta + chord * tan(steering) / wheelbase)`,
`x = x + chord * cos theta`, `y = y + chord * sin theta`, cost accumulates the
chord length, and the parent back-reference is the current grid index. -/
noncomputable def calculate_next_node (current : HNode) (current_node_index : ℤ)
    (chord_length steering : ℝ) : HNode :=
  let theta := change_radians_range
    (current.pose.theta + chord_length * Real.tan steering / wheelbase)
  let x := current.pose.x + chord_length * Real.cos theta
  let y := current.pose.y + chord_length * Real.sin theta
  mkHNode ⟨x, y, theta⟩ (current.cost + chord_length) steering current_node_index

/-- A CPython dict lookup over an insertion-ordered association list. -/
def dictLookup {V : Type} (k : ℤ) : List (ℤ × V) → Option V
  | [] => none
  | e :: es => if e.1 = k then some e.2 else dictLookup k es

/-- A CPython dict update `d[k] = v`: replace in place if the key is present,
append otherwise. -/
def dictSet {V : Type} (k : ℤ) (v : V) : List (ℤ × V) → List (ℤ × V)
  | [] => [(k, v)]
  | e :: es => if e.1 = k then (e.1, v) :: es else e :: dictSet k v es

/-- A CPython dict deletion `del d[k]`. -/
def dictErase {V : Type} (k : ℤ) (d : List (ℤ × V)) : List (ℤ × V) :=
  d.filter (fun e => e.1 ≠ k)

/-- The keys of a dict, in iteration (= insertion) order. -/
def dictKeys {V : Type} (d : List (ℤ × V)) : List ℤ := d.map Prod.fst

/-- Python's `min(open_set, key=...)` over a non-empty dict: the first entry
(in iteration order) attaining the minimal key value. -/
noncomputable def dictArgmin (f : HNode → ℝ) (e : ℤ × HNode) (es : List (ℤ × HNode)) :
    ℤ × HNode :=
  es.foldl (fun best cur => if f cur.2 < f best.2 then cur else best) e

/-- The Map capability consumed by the planners (spec §6): grid-index hashing
and the segment/occupancy collision query. The concrete map layouts are
external collaborators, so the capability is a parameter. -/
structure MapCap where
  gridIndex : ℤ → ℤ → ℤ
  notCrossed : ℤ × ℤ → ℤ × ℤ → Bool

/-- `steering_degree_inputs = [-40, -20, -10, 0, 10, 20, 40]`, converted by
`math.radians`. -/
noncomputable def steering_inputs : List ℝ :=
  [-40, -20, -10, 0, 10, 20, 40].map (fun d => d * Real.pi / 180)

/-- `chord_lengths = [2, 1]`. -/
def chord_lengths : List ℝ := [2, 1]

/-- `HybridAStarRoutePlanner.calculate_distance_to_end`. -/
noncomputable def calculate_distance_to_end (pose goal : Pose2) : ℝ :=
  Real.sqrt ((pose.x - goal.x) ^ 2 + (pose.y - goal.y) ^ 2)

/-- `HybridAStarRoutePlanner.calculate_heuristic_cost`: distance to goal plus
`0.1` times the absolute normalized heading error plus `10` times the absolute
steering. -/
noncomputable def calculate_heuristic_cost (goal : Pose2) (node : HNode) : ℝ :=
  calculate_distance_to_end node.pose goal
    + |change_radians_range (node.pose.theta - goal.theta)| * 0.1
    + |node.steering| * 10

/-- The motion-primitive expansion list
`[calculate_next_node(cur, i, velocity, steering) for steering in steering_inputs
for velocity in chord_lengths]` (steering is the outer loop). -/
noncomputable def hybrid_successors (current : HNode) (current_node_index : ℤ) :
    List HNode :=
  steering_inputs.flatMap fun s =>
    chord_lengths.map fun L => calculate_next_node current current_node_index L s

/-- The parent back-chain walk of `process_route`: follow `parent_node_index`
through the closed set while it is not `-1`, collecting `(x, y)` points.
The fuel bounds the number of lookups; `none` models a `KeyError` or a chain
that does not reach `-1` within the fuel (in Python, an exception or an
infinite loop). -/
noncomputable def chainPoints (closed : List (ℤ × HNode)) : ℕ → ℤ → Option (List (ℝ × ℝ))
  | 0, p => if p = -1 then some [] else none
  | fuel + 1, p =>
    if p = -1 then some [] else
      match dictLookup p closed with
      | none => none
      | some n => (chainPoints closed fuel n.parent_node_index).map
          (fun l => (n.pose.x, n.pose.y) :: l)

/-- `HybridAStarRoutePlanner.process_route` followed by the zipping of the
`rx`/`ry` lists into trajectory rows (`utils.transform_trajectory` — modelled
from the spec: angle-annotation of raw point paths / zipping, `utils.py` is
not among the provided sources): the goal node's point followed by the parent
back-chain, reversed. A chain of length `closed.length` suffices for any
well-formed closed set, since parents strictly precede children. -/
noncomputable def process_route (closed : List (ℤ × HNode)) (goalNode : HNode) :
    Option (List (ℝ × ℝ)) :=
  (chainPoints closed closed.length goalNode.parent_node_index).map
    (fun l => ((goalNode.pose.x, goalNode.pose.y) :: l).reverse)

/-- Modelled from the spec: `utils.calculate_trajectory_distance` — distance
accumulation over consecutive trajectory points (`utils.py` is not among the
provided sources; the spec lists "distance accumulation" among the trajectory
utilities). -/
noncomputable def calculate_trajectory_distance : List (ℝ × ℝ) → ℝ
  | [] => 0
  | [_] => 0
  | p :: q :: rest => euclid p.1 p.2 q.1 q.2 + calculate_trajectory_distance (q :: rest)

/-- One successor-processing step of the Hybrid A* expansion (the body of the
`for next_node in next_nodes` loop): keep the successor only if the map says
the segment between the discrete cells does not cross an obstacle, skip it if
its grid key is closed, insert it if the key is new, and replace the open
entry if the stored cost is higher. -/
noncomputable def hybrid_expand (M : MapCap) (current : HNode)
    (closed : List (ℤ × HNode)) (opn : List (ℤ × HNode)) (nxt : HNode) :
    List (ℤ × HNode) :=
  if M.notCrossed (current.discrete_x, current.discrete_y)
      (nxt.discrete_x, nxt.discrete_y) then
    if (dictLookup (M.gridIndex nxt.discrete_x nxt.discrete_y) closed).isSome then opn
    else
      match dictLookup (M.gridIndex nxt.discrete_x nxt.discrete_y) opn with
      | none => dictSet (M.gridIndex nxt.discrete_x nxt.discrete_y) nxt opn
      | some old =>
        if old.cost > nxt.cost
        then dictSet (M.gridIndex nxt.discrete_x nxt.discrete_y) nxt opn
        else opn
  else opn

/-- The `while open_set:` loop of `HybridAStarRoutePlanner.search_route`,
with an explicit fuel (`none` = the loop did not return within the fuel).
`Except.error` models a Python exception escaping the loop (a `KeyError`
in `process_route`); the proofs show it is unreachable from the planner's
entry state. -/
noncomputable def searchLoop (M : MapCap) (goal : Pose2) :
    ℕ → List (ℤ × HNode) → List (ℤ × HNode) →
    Option (Except Unit (Bool × ℝ × List (ℝ × ℝ)))
  | 0, _, _ => none
  | _ + 1, [], _ => some (.ok (false, 0, []))
  | fuel + 1, e :: es, closed =>
    let pick := dictArgmin (fun n => n.cost + calculate_heuristic_cost goal n) e es
    if calculate_distance_to_end pick.2.pose goal ≤ 1 then
      match process_route closed pick.2 with
      | none => some (.error ())
      | some traj => some (.ok (true, calculate_trajectory_distance traj, traj))
    else
      let open1 := dictErase pick.1 (e :: es)
      let closed1 := dictSet pick.1 pick.2 closed
      let open2 := (hybrid_successors pick.2 pick.1).foldl
        (hybrid_expand M pick.2 closed1) open1
      searchLoop M goal fuel open2 closed1

/-- `HybridAStarRoutePlanner.search_route`: start from an open set holding
only the start node (cost 0, steering 0, no parent) keyed by its grid index,
and an empty closed set. -/
noncomputable def hybrid_search_route (M : MapCap) (startPose goal : Pose2) (fuel : ℕ) :
    Option (Except Unit (Bool × ℝ × List (ℝ × ℝ))) :=
  let startNode := mkHNode startPose 0 0 (-1)
  searchLoop M goal fuel
    [(M.gridIndex startNode.discrete_x startNode.discrete_y, startNode)] []

/-- `p` is a well-formed parent pointer: following `parent_node_index`
through the closed set reaches the sentinel `-1` within `n` lookups. -/
def ChainOKn (closed : List (ℤ × HNode)) : ℕ → ℤ → Prop
  | 0, p => p = -1
  | n + 1, p => p = -1 ∨
      ∃ nd, dictLookup p closed = some nd ∧ ChainOKn closed n nd.parent_node_index

/-- The Hybrid A* loop invariant: every open node's parent chain is
well-formed over the closed set, and no open key is closed. -/
def HInv (opn closed : List (ℤ × HNode)) : Prop :=
  (∀ e ∈ opn, ChainOKn closed closed.length (e.2).parent_node_index) ∧
  (∀ k ∈ dictKeys opn, dictLookup k closed = (none : Option HNode))

/-- A map capability whose grid hash is constant and that reports every
segment as obstacle-free; used to instantiate universally quantified theorems
at a concrete input. -/
def trivialMap : MapCap := ⟨fun _ _ => 0, fun _ _ => true⟩

/-! ## Informed TRRT* tree planner (`informed_trrt_star_planner.py`) -/

/-- `route_planner.geometry.Node`, tree-planner variant. Modelled from the
spec: `geometry.py` is not among the provided sources; the spec gives
`(x, y, cost, parent)` with the parent back-reference reimplemented as an
arena index into the planner's append-only node list (spec §9), `none`
denoting "no parent". The `Node(x, y, 0.0)` constructor passes a default
cost (see the source comment at `smooth_path`). -/
structure TNode where
  x : ℝ
  y : ℝ
  cost : ℝ
  parent : Option ℕ

/-- `Node(x, y, cost)`: a fresh node has no parent. -/
def mkTNode (x y cost : ℝ) : TNode := ⟨x, y, cost, none⟩

/-- Default node used for (never out-of-range in the source) arena reads. -/
def defaultTNode : TNode := ⟨0, 0, 0, none⟩

/-- The primitive operations the `InformedTRRTStar` subclass inherits from
its `InformedRRTStar` parent class, which is not among the provided sources.
The spec treats their behavior abstractly (steer by at most a given length,
a collision-free query against the map, nearest-node lookup, RRT* rewiring),
so they are capability parameters of the embedding. `steer2` is
`steer` called without its (unknown) default `extend_length`. -/
structure RRTPrims where
  steer : TNode → TNode → ℝ → TNode
  steer2 : TNode → TNode → TNode
  is_collision_free : TNode → TNode → Bool
  get_nearest_node_index : List TNode → TNode → ℕ
  rewire : List TNode → ℕ → List ℕ → List TNode

/-- The mutable state of `InformedTRRTStar.search_route`: the arena of tree
nodes, the (replaceable) goal node, the best cost to goal `c_best`
(a Python float initialized to `float("inf")`, hence `EReal`), the minimum
transform distance `c_min`, the search radius, and whether the loop has hit
its `break` (first successful goal connection). -/
structure TRRTState where
  nodes : List TNode
  goal : TNode
  cBest : EReal
  cMin : ℝ
  searchRadius : ℝ
  done : Bool

/-- `InformedTRRTStar.__init__`: start node of cost 0 seeds the tree, goal
node of cost 0, `c_best = inf`, `c_min = |start - goal|`. -/
noncomputable def initTRRT (searchRadius : ℝ) (sx sy gx gy : ℝ) : TRRTState :=
  { nodes := [mkTNode sx sy 0]
    goal := mkTNode gx gy 0
    cBest := ⊤
    cMin := euclid sx sy gx gy
    searchRadius := searchRadius
    done := false }

/-- The dynamically adjusted neighbor radius of the growth step:
`search_radius * (c_best / c_min)`, computed in Python float arithmetic with
`c_best` possibly `inf`. -/
noncomputable def adaptiveRadius (st : TRRTState) : EReal :=
  (st.searchRadius : EReal) * (st.cBest / (st.cMin : EReal))

/-- The neighbor set of the growth step, as arena indices: all existing tree
nodes within `adaptiveRadius` (Euclidean) of the new node. -/
noncomputable def nearIndices (st : TRRTState) (newNode : TNode) : List ℕ :=
  (List.range st.nodes.length).filter fun i =>
    ((euclid (st.nodes.getD i defaultTNode).x (st.nodes.getD i defaultTNode).y
        newNode.x newNode.y : ℝ) : EReal) ≤ adaptiveRadius st

/-- `InformedTRRTStar.heuristic`: Euclidean distance to the goal. -/
noncomputable def trrtHeuristic (node goal : TNode) : ℝ :=
  euclid goal.x goal.y node.x node.y

/-- `InformedTRRTStar.search_best_parent`: among the neighbor indices, the
first one minimizing `near.cost + dist(new, near) + 1.5 * heuristic(new,
goal)` subject to a collision-free connection (`min_cost` starts at
`float("inf")`; strict improvement keeps the first minimum). -/
noncomputable def search_best_parent (P : RRTPrims) (st : TRRTState)
    (newNode : TNode) (nearIdxs : List ℕ) : Option ℕ :=
  (nearIdxs.foldl
    (fun (acc : Option ℕ × EReal) i =>
      let near := st.nodes.getD i defaultTNode
      if P.is_collision_free near newNode then
        let hc : ℝ := near.cost + euclid newNode.x newNode.y near.x near.y
          + 1.5 * trrtHeuristic newNode st.goal
        if (hc : EReal) < acc.2 then (some i, (hc : EReal)) else acc
      else acc)
    (none, ⊤)).1

/-- One iteration of the `for _ in range(self.max_iter)` growth loop of
`InformedTRRTStar.search_route` (source lines 104–134), acting on the state,
given the node produced by `self.sample` for this iteration (sampling is
randomized and corridor-filtered, so the sampled node is an oracle input).
A `done` state models the `break` after the first successful goal
connection. -/
noncomputable def trrtBody (P : RRTPrims) (st : TRRTState) (randNode : TNode) :
    TRRTState :=
  if st.done then st
  else
    let nearestNode := st.nodes.getD (P.get_nearest_node_index st.nodes randNode)
      defaultTNode
    let newNode0 := P.steer nearestNode randNode st.searchRadius
    if ¬ P.is_collision_free nearestNode newNode0 then st
    else
      let nearIdxs := nearIndices st newNode0
      let newNode :=
        match search_best_parent P st newNode0 nearIdxs with
        | none => newNode0
        | some bi =>
          { P.steer2 (st.nodes.getD bi defaultTNode) newNode0 with parent := some bi }
      let newIdx := st.nodes.length
      let nodes2 := P.rewire (st.nodes ++ [newNode]) newIdx nearIdxs
      if euclid newNode.x newNode.y st.goal.x st.goal.y ≤ st.searchRadius then
        let finalNode := P.steer2 newNode st.goal
        if P.is_collision_free newNode finalNode then
          let goal1 : TNode := { finalNode with parent := some newIdx }
          { st with
            nodes := nodes2 ++ [goal1]
            goal := goal1
            cBest := (goal1.cost : EReal)
            done := true }
        else { st with nodes := nodes2 }
      else { st with nodes := nodes2 }

/-- The growth loop: fold the iteration body over the oracle's sampled nodes
(one per iteration; `samples.length = max_iter`). -/
noncomputable def trrtLoop (P : RRTPrims) (st : TRRTState) (samples : List TNode) :
    TRRTState :=
  samples.foldl (trrtBody P) st

/-- `InformedTRRTStar.narrow_sample`: one `(x1, y1, x2, y2, margin)` corridor
tuple per consecutive pair of seed-path points, with
`margin = search_radius / 2`. -/
noncomputable def narrow_sample (searchRadius : ℝ) (xPath yPath : List ℝ) :
    List (ℝ × ℝ × ℝ × ℝ × ℝ) :=
  (List.range (xPath.length - 1)).map fun i =>
    (xPath.getD i 0, yPath.getD i 0, xPath.getD (i + 1) 0, yPath.getD (i + 1) 0,
      searchRadius / 2)

/-- `InformedTRRTStar.is_within_region`: perpendicular distance from the node
to each corridor segment, compared against the margin. The distance divides
by `math.hypot(y2 - y1, x2 - x1)`; Python raises `ZeroDivisionError` when
that segment length is zero, modelled by `Except.error`. -/
noncomputable def is_within_region (nx ny : ℝ) :
    List (ℝ × ℝ × ℝ × ℝ × ℝ) → Except Unit Bool
  | [] => .ok false
  | (x1, y1, x2, y2, margin) :: rest =>
    if euclid (y2 - y1) (x2 - x1) 0 0 = 0 then .error ()
    else
      if |(y2 - y1) * nx - (x2 - x1) * ny + x2 * y1 - y2 * x1| /
          euclid (y2 - y1) (x2 - x1) 0 0 ≤ margin
      then .ok true
      else is_within_region nx ny rest

/-- The inner `for j in range(len(path_x) - 1, i, -1)` scan of
`InformedTRRTStar.smooth_path`: the first index `j` (from the end, down to
`i + 1`) whose straight segment from index `i` is collision-free. -/
noncomputable def smoothScan (collFree : TNode → TNode → Bool)
    (pathX pathY : List ℝ) (i : ℕ) : Option ℕ :=
  ((List.range' (i + 1) (pathX.length - 1 - i)).reverse).find? fun j =>
    collFree (mkTNode (pathX.getD i 0) (pathY.getD i 0) 0)
      (mkTNode (pathX.getD j 0) (pathY.getD j 0) 0)

/-- The `while i < len(path_x) - 1` loop of `InformedTRRTStar.smooth_path`,
with explicit fuel. When the inner scan finds no collision-free shortcut the
Python loop body leaves `i` unchanged and retries forever; that is modelled
by recursing on the same state, so exhausting any fuel (`none`) is exactly
non-termination. -/
noncomputable def smoothLoop (collFree : TNode → TNode → Bool)
    (pathX pathY : List ℝ) :
    ℕ → ℕ → List ℝ → List ℝ → Option (List ℝ × List ℝ)
  | 0, _, _, _ => none
  | fuel + 1, i, accX, accY =>
    if i < pathX.length - 1 then
      match smoothScan collFree pathX pathY i with
      | some j =>
        smoothLoop collFree pathX pathY fuel j
          (accX ++ [pathX.getD j 0]) (accY ++ [pathY.getD j 0])
      | none => smoothLoop collFree pathX pathY fuel i accX accY
    else some (accX, accY)

/-- `InformedTRRTStar.smooth_path`: greedy shortcutting from index 0,
starting from the singleton lists holding the path's first point. -/
noncomputable def smooth_path (collFree : TNode → TNode → Bool) (fuel : ℕ)
    (pathX pathY : List ℝ) : Option (List ℝ × List ℝ) :=
  smoothLoop collFree pathX pathY fuel 0 [pathX.getD 0 0] [pathY.getD 0 0]

/-- Modelled from the spec: `generate_final_course` of the missing
`InformedRRTStar` parent class — "reconstruct the tree path via parent
back-chain from goal to start, reverse it". Fuel bounds the chain length
(`none` models a cycle, i.e. Python non-termination). -/
noncomputable def courseChain (nodes : List TNode) : ℕ → TNode → Option (List (ℝ × ℝ))
  | 0, _ => none
  | fuel + 1, n =>
    match n.parent with
    | none => some [(n.x, n.y)]
    | some i => (courseChain nodes fuel (nodes.getD i defaultTNode)).map
        (fun l => (n.x, n.y) :: l)

/-- Modelled from the spec (continued): the back-chain from the goal,
reversed, split back into x/y lists. -/
noncomputable def generate_final_course (st : TRRTState) (fuel : ℕ) :
    Option (List ℝ × List ℝ) :=
  (courseChain st.nodes fuel st.goal).map
    (fun l => ((l.reverse).map Prod.fst, (l.reverse).map Prod.snd))

/-- `InformedTRRTStar.search_route`: the Theta* seed path is the external
seed-path capability's output (spec §6), given here as the `seedX`/`seedY`
inputs; empty sequences signal its failure. On seed failure or on an
unparented goal after the growth loop the planner returns four empty
sequences; otherwise it returns the seed path and the smoothed final
course. -/
noncomputable def trrt_search_route (P : RRTPrims) (searchRadius : ℝ)
    (sx sy gx gy : ℝ) (seedX seedY : List ℝ) (samples : List TNode)
    (courseFuel smoothFuel : ℕ) : Option (List ℝ × List ℝ × List ℝ × List ℝ) :=
  if seedX = [] ∨ seedY = [] then some ([], [], [], [])
  else
    let st1 := trrtLoop P (initTRRT searchRadius sx sy gx gy) samples
    match st1.goal.parent with
    | none => some ([], [], [], [])
    | some _ =>
      match generate_final_course st1 courseFuel with
      | none => none
      | some (rxOpt, ryOpt) =>
        match smooth_path P.is_collision_free smoothFuel rxOpt ryOpt with
        | none => none
        | some (sx2, sy2) => some (seedX, seedY, sx2, sy2)

/-- Trivial tree-planner primitives used to instantiate universally
quantified theorems at a concrete input. -/
def trivialPrims : RRTPrims :=
  ⟨fun n _ _ => n, fun n _ => n, fun _ _ => false, fun _ _ => 0, fun ns _ _ => ns⟩

/-! ## MPC controllers (`control/mpc_basic.py`, `controller/mpc_controller.py`) -/

/-- Controller state `(x, y, theta, v)`. -/
structure CState where
  x : ℝ
  y : ℝ
  theta : ℝ
  v : ℝ

/-- Default state for (never out-of-range in the source) list reads. -/
def defaultCState : CState := ⟨0, 0, 0, 0⟩

/-- `mpc_basic.MPCController.predict`: the kinematic bicycle update
(`x += v cos θ dt`, `y += v sin θ dt`, `θ += v/L tan δ dt`, `v += c₁ dt`;
this variant treats the first control component as a velocity target). -/
noncomputable def predict (wb dt : ℝ) (s : CState) (c : ℝ × ℝ) : CState :=
  ⟨s.x + s.v * Real.cos s.theta * dt,
   s.y + s.v * Real.sin s.theta * dt,
   s.theta + s.v / wb * Real.tan c.2 * dt,
   s.v + c.1 * dt⟩

/-- `np.linspace a b n`: `n` evenly spaced samples from `a` to `b`. -/
noncomputable def linspace (a b : ℝ) (n : ℕ) : List ℝ :=
  (List.range n).map fun i => a + (b - a) * i / ((n : ℝ) - 1)

/-- The 7×7 control-combination grid of both `optimize_control` variants:
first component over `linspace(-1, 1, 7)` (outer loop), steering over
`linspace(-π/6, π/6, 7)` (inner loop). -/
noncomputable def controlGrid : List (ℝ × ℝ) :=
  (linspace (-1) 1 7).flatMap fun a =>
    (linspace (-(Real.pi / 6)) (Real.pi / 6) 7).map fun d => (a, d)

/-- The horizon-step forward rollout: repeatedly apply the state update with
a fixed control, collecting the successive predicted states. -/
noncomputable def rolloutStates (step : CState → ℝ × ℝ → CState) :
    ℕ → CState → ℝ × ℝ → List CState
  | 0, _, _ => []
  | n + 1, s, c => step s c :: rolloutStates step n (step s c) c

/-- `if len(predicted_states) > len(ref_trajectory): predicted_states =
predicted_states[:len(ref_trajectory)]`. -/
def truncTo (refLen : ℕ) (pred : List CState) : List CState :=
  if pred.length > refLen then pred.take refLen else pred

/-- Summed squared error of one predicted state against one reference row
(position, heading and speed all contribute equally). -/
noncomputable def stateSqErr (s r : CState) : ℝ :=
  (s.x - r.x) ^ 2 + (s.y - r.y) ^ 2 + (s.theta - r.theta) ^ 2 + (s.v - r.v) ^ 2

/-- `compute_cost` (identical in both variants): accumulate the squared state
error, stopping at the shorter of the two sequences. The reference rows are
modelled with the full `(x, y, theta, v)` state, following the spec
(`utils.py`, which builds the reference rows, is not among the provided
sources). -/
noncomputable def compute_cost (pred ref : List CState) : ℝ :=
  ((pred.zip ref).map fun p => stateSqErr p.1 p.2).sum

/-- `mpc_basic.MPCController.is_collision_free`: query the map at the
(rounded) predicted position, as the degenerate segment from the cell to
itself. -/
noncomputable def is_collision_free_basic (M : MapCap) (s : CState) : Bool :=
  M.notCrossed (pyRound s.x, pyRound s.y) (pyRound s.x, pyRound s.y)

/-- `mpc_basic.MPCController.optimize_control`: grid-search the 49 control
combinations, roll each forward `horizon` steps, truncate to the reference
length, keep the cheapest fully collision-free rollout's control
(`min_cost` starts at `float("inf")`), and fall back to `(0.1, 0.0)` when no
combination passes (this variant returns only the control). -/
noncomputable def optimize_control_basic (M : MapCap) (wb dt : ℝ) (horizon : ℕ)
    (cur : CState) (ref : List CState) : ℝ × ℝ :=
  let best := controlGrid.foldl
    (fun (acc : Option (ℝ × ℝ) × EReal) c =>
      let pred := truncTo ref.length (rolloutStates (predict wb dt) horizon cur c)
      if pred.all (is_collision_free_basic M) then
        let cost := compute_cost pred ref
        if (cost : EReal) < acc.2 then (some c, (cost : EReal)) else acc
      else acc)
    (none, ⊤)
  match best.1 with
  | none => (0.1, 0)
  | some c => c

/-- `controller.mpc_controller.MPCController.optimize_control`: as above but
returning the winning rollout too, and falling back to `(0.5, 0.0)` together
with the unchecked rollout of that default control. `apply_control` and the
two-argument `is_collision_free` are inherited from the missing
`base_controller.py`, hence capability parameters. The Python loop variable
`state` holds the last (untruncated) rollout state when the collision check
runs, so that is the first argument passed to the query. -/
noncomputable def optimize_control_ctrl (applyControl : CState → ℝ × ℝ → CState)
    (collFree2 : CState → CState → Bool) (horizon : ℕ)
    (cur : CState) (ref : List CState) : (ℝ × ℝ) × List CState :=
  let best := controlGrid.foldl
    (fun (acc : Option ((ℝ × ℝ) × List CState) × EReal) c =>
      let full := rolloutStates applyControl horizon cur c
      let pred := truncTo ref.length full
      if pred.all (collFree2 (full.getLastD cur)) then
        let cost := compute_cost pred ref
        if (cost : EReal) < acc.2 then (some (c, pred), (cost : EReal)) else acc
      else acc)
    (none, ⊤)
  match best.1 with
  | none => ((0.5, 0), rolloutStates applyControl horizon cur (0.5, 0))
  | some cp => cp

/-- `np.argmin`: position of the first minimum of a list of distances
(position 0 for the empty list, which raises in numpy but is never reached
by the callers here). -/
noncomputable def argminIdx : List ℝ → ℕ
  | [] => 0
  | d :: ds =>
    (ds.foldl
      (fun (acc : ℕ × ℝ × ℕ) v =>
        if v < acc.2.1 then (acc.2.2, v, acc.2.2 + 1) else (acc.1, acc.2.1, acc.2.2 + 1))
      (0, d, 1)).1

/-- The reference re-anchoring step of `follow_trajectory` (source lines
101–113): clamp the search window to `[max(ref_index - window, 0),
min(ref_index + window, max_ref_index)]` (the lower clamp is ℕ-truncated
subtraction), measure the distance from each windowed reference point to the
current position, and return `search_indices[argmin]`, i.e. the window start
plus the argmin position. -/
noncomputable def updateRefIndex (refTraj : List CState) (window prevIdx : ℕ)
    (px py : ℝ) : ℕ :=
  let maxRefIdx := refTraj.length - 1
  let searchStart := prevIdx - window
  let searchEnd := min (prevIdx + window) maxRefIdx
  let dists := (List.range' searchStart (searchEnd + 1 - searchStart)).map fun i =>
    euclid (refTraj.getD i defaultCState).x (refTraj.getD i defaultCState).y px py
  searchStart + argminIdx dists

/-- Modelled from the spec: `utils.calculate_angle` — the heading from one
waypoint toward another (`utils.py` is not among the provided sources; the
spec lists "heading computation between waypoints" among the trajectory
utilities). -/
noncomputable def calculate_angle (x1 y1 x2 y2 : ℝ) : ℝ :=
  atan2 (y2 - y1) (x2 - x1)

/-- Accumulated distance over a controller trajectory's `(x, y)` columns. -/
noncomputable def trajectory_distance_states (tr : List CState) : ℝ :=
  calculate_trajectory_distance (tr.map fun s => (s.x, s.y))

/-- The `while True` loop of `controller.mpc_controller.follow_trajectory`,
fuel-indexed (`none` = the loop has not exited within the fuel). Its only
exit is the goal-proximity `break`; each pass re-anchors the reference index,
slices a horizon-length segment (padding a short tail with its last point),
optimizes, applies the winning control, and records the control history.
The goal test `is_goal_reached` comes from the missing `base_controller.py`
and is a capability parameter (a pure predicate, per spec §5). -/
noncomputable def followLoop (applyControl : CState → ℝ × ℝ → CState)
    (collFree2 : CState → CState → Bool) (isGoal : CState → ℝ × ℝ → Bool)
    (horizon : ℕ) (refTraj : List CState) (goal : ℝ × ℝ) :
    ℕ → CState → ℕ → List CState → List ℝ → List ℝ →
    Option (CState × List CState × List ℝ × List ℝ)
  | 0, _, _, _, _, _ => none
  | fuel + 1, cur, refIdx, traj, steers, accels =>
    if isGoal cur goal then some (cur, traj, steers, accels)
    else
      let refIdx1 := updateRefIndex refTraj 10 refIdx cur.x cur.y
      let segEnd := min (refIdx1 + horizon) ((refTraj.length - 1) + 1)
      let seg := (refTraj.drop refIdx1).take (segEnd - refIdx1)
      let seg2 :=
        if seg.length < horizon then
          seg ++ List.replicate (horizon - seg.length) (seg.getLastD defaultCState)
        else seg
      let cp := optimize_control_ctrl applyControl collFree2 horizon cur seg2
      let nxt := applyControl cur cp.1
      followLoop applyControl collFree2 isGoal horizon refTraj goal fuel nxt refIdx1
        (traj ++ [nxt]) (steers ++ [cp.1.2]) (accels ++ [cp.1.1])

/-- `controller.mpc_controller.MPCController.follow_trajectory`: orient the
start pose toward the second reference point, run the loop from reference
index 0, and afterwards — only if the goal test fails on the final state —
snap the position to the exact goal (appending the snapped state). The
returned flag is the `is_reached` variable (initialized `True`, never
reassigned). -/
noncomputable def follow_trajectory (applyControl : CState → ℝ × ℝ → CState)
    (collFree2 : CState → CState → Bool) (isGoal : CState → ℝ × ℝ → Bool)
    (horizon fuel : ℕ) (start : Pose2) (refTraj : List CState) (goal : ℝ × ℝ) :
    Option (Bool × ℝ × List CState × List ℝ × List ℝ) :=
  let theta0 := calculate_angle start.x start.y
    (refTraj.getD 1 defaultCState).x (refTraj.getD 1 defaultCState).y
  let st0 : CState := ⟨start.x, start.y, theta0, 0⟩
  match followLoop applyControl collFree2 isGoal horizon refTraj goal fuel st0 0
      [st0] [] [] with
  | none => none
  | some (cur, traj, steers, accels) =>
    let fin :=
      if isGoal cur goal then traj
      else traj ++ [⟨goal.1, goal.2, calculate_angle goal.1 goal.2 goal.1 goal.2, cur.v⟩]
    some (true, trajectory_distance_states fin, fin, steers, accels)

/-- A map capability that rejects every query; used to instantiate
universally quantified theorems at a concrete input. -/
def blockedMap : MapCap := ⟨fun _ _ => 0, fun _ _ => false⟩

/-! ## Theorems -/

theorem dictLookup_mem_keys {V : Type} {k : ℤ} {d : List (ℤ × V)} {v : V}
    (h : dictLookup k d = some v) : k ∈ dictKeys d := by
  induction d with
  | nil => simp [dictLookup] at h
  | cons e es ih =>
    simp only [dictLookup] at h
    by_cases he : e.1 = k
    · simp [dictKeys, he]
    · rw [if_neg he] at h
      simp [dictKeys] at ih ⊢
      exact Or.inr (ih h)

theorem dictLookup_dictSet_self {V : Type} (k : ℤ) (v : V) (d : List (ℤ × V)) :
    dictLookup k (dictSet k v d) = some v := by
  induction d with
  | nil => simp [dictLookup, dictSet]
  | cons e es ih =>
    simp only [dictSet]
    by_cases he : e.1 = k
    · simp [dictLookup, he]
    · rw [if_neg he]
      simp only [dictLookup, if_neg he]
      exact ih

theorem dictLookup_dictSet_ne {V : Type} {p k : ℤ} (h : p ≠ k) (v : V)
    (d : List (ℤ × V)) : dictLookup p (dictSet k v d) = dictLookup p d := by
  induction d with
  | nil =>
    simp only [dictSet, dictLookup]
    rw [if_neg (fun hh : k = p => h hh.symm)]
  | cons e es ih =>
    simp only [dictSet]
    by_cases he : e.1 = k
    · subst he
      have hep : ¬ e.1 = p := fun hh => h hh.symm
      simp [dictLookup, hep]
    · rw [if_neg he]
      simp only [dictLookup]
      by_cases hp : e.1 = p
      · simp [hp]
      · simp [hp, ih]

theorem dictSet_length_fresh {V : Type} {k : ℤ} {d : List (ℤ × V)}
    (h : dictLookup k d = none) (v : V) :
    (dictSet k v d).length = d.length + 1 := by
  induction d with
  | nil => simp [dictSet]
  | cons e es ih =>
    simp only [dictLookup] at h
    by_cases he : e.1 = k
    · rw [if_pos he] at h
      exact absurd h (by simp)
    · rw [if_neg he] at h
      simp [dictSet, if_neg he, ih h]

theorem mem_dictSet {V : Type} {e : ℤ × V} {k : ℤ} {v : V} {d : List (ℤ × V)}
    (h : e ∈ dictSet k v d) : e = (k, v) ∨ e ∈ d := by
  induction d with
  | nil => simpa [dictSet] using h
  | cons a as ih =>
    simp only [dictSet] at h
    by_cases ha : a.1 = k
    · rw [if_pos ha] at h
      rcases List.mem_cons.1 h with h1 | h2
      · exact Or.inl (by rw [h1, ha])
      · exact Or.inr (List.mem_cons_of_mem _ h2)
    · rw [if_neg ha] at h
      rcases List.mem_cons.1 h with h1 | h2
      · exact Or.inr (by simp [h1])
      · rcases ih h2 with h3 | h4
        · exact Or.inl h3
        · exact Or.inr (List.mem_cons_of_mem _ h4)

theorem mem_keys_dictSet {V : Type} {k' k : ℤ} {v : V} {d : List (ℤ × V)}
    (h : k' ∈ dictKeys (dictSet k v d)) : k' = k ∨ k' ∈ dictKeys d := by
  simp only [dictKeys, List.mem_map] at h
  obtain ⟨e, he, hk⟩ := h
  rcases mem_dictSet he with h1 | h2
  · exact Or.inl (by rw [← hk, h1])
  · exact Or.inr (List.mem_map.2 ⟨e, h2, hk⟩)

theorem mem_dictErase {V : Type} {e : ℤ × V} {k : ℤ} {d : List (ℤ × V)}
    (h : e ∈ dictErase k d) : e ∈ d ∧ e.1 ≠ k := by
  simpa [dictErase] using (List.mem_filter.1 h)

theorem dictArgmin_mem (f : HNode → ℝ) (e : ℤ × HNode) (es : List (ℤ × HNode)) :
    dictArgmin f e es ∈ e :: es := by
  induction es generalizing e with
  | nil => simp [dictArgmin]
  | cons a as ih =>
    have heq : dictArgmin f e (a :: as) =
        dictArgmin f (if f a.2 < f e.2 then a else e) as := by
      simp [dictArgmin]
    rw [heq]
    rcases List.mem_cons.1 (ih (if f a.2 < f e.2 then a else e)) with h1 | h2
    · rw [h1]
      split
      · exact List.mem_cons_of_mem _ (List.mem_cons_self _ _)
      · exact List.mem_cons_self _ _
    · exact List.mem_cons_of_mem _ (List.mem_cons_of_mem _ h2)

theorem ChainOKn_mono {closed : List (ℤ × HNode)} :
    ∀ {n m : ℕ} {p : ℤ}, ChainOKn closed n p → n ≤ m → ChainOKn closed m p := by
  intro n
  induction n with
  | zero =>
    intro m p h _
    cases m with
    | zero => exact h
    | succ m => exact Or.inl h
  | succ n ih =>
    intro m p h hm
    obtain ⟨m, rfl⟩ : ∃ m', m = m' + 1 := ⟨m - 1, by omega⟩
    rcases h with h | ⟨nd, hl, hc⟩
    · exact Or.inl h
    · exact Or.inr ⟨nd, hl, ih hc (by omega)⟩

theorem ChainOKn_dictSet_fresh {closed : List (ℤ × HNode)} {k : ℤ} {v : HNode}
    (hk : dictLookup k closed = none) :
    ∀ {n : ℕ} {p : ℤ}, ChainOKn closed n p → ChainOKn (dictSet k v closed) n p := by
  intro n
  induction n with
  | zero => intro p h; exact h
  | succ n ih =>
    intro p h
    rcases h with h | ⟨nd, hl, hc⟩
    · exact Or.inl h
    · have hpk : p ≠ k := by
        intro hpk
        rw [hpk, hk] at hl
        exact Option.noConfusion hl
      exact Or.inr ⟨nd, by rw [dictLookup_dictSet_ne hpk, hl], ih hc⟩

theorem chainPoints_isSome {closed : List (ℤ × HNode)} :
    ∀ {n : ℕ} {p : ℤ}, ChainOKn closed n p →
    ∀ fuel, n ≤ fuel → ∃ l, chainPoints closed fuel p = some l := by
  intro n
  induction n with
  | zero =>
    intro p h fuel _
    simp only [ChainOKn] at h
    cases fuel with
    | zero => exact ⟨[], by simp [chainPoints, h]⟩
    | succ f => exact ⟨[], by simp [chainPoints, h]⟩
  | succ n ih =>
    intro p h fuel hf
    obtain ⟨f, rfl⟩ : ∃ f, fuel = f + 1 := ⟨fuel - 1, by omega⟩
    by_cases hp : p = -1
    · exact ⟨[], by simp [chainPoints, hp]⟩
    · rcases h with h | ⟨nd, hl, hc⟩
      · exact absurd h hp
      · obtain ⟨l, hcp⟩ := ih hc f (by omega)
        exact ⟨(nd.pose.x, nd.pose.y) :: l, by simp [chainPoints, hp, hl, hcp]⟩

theorem hybrid_successors_parent {cur : HNode} {ci : ℤ} :
    ∀ n ∈ hybrid_successors cur ci, n.parent_node_index = ci := by
  intro n hn
  simp only [hybrid_successors, List.mem_flatMap, List.mem_map] at hn
  obtain ⟨s, _, L, _, rfl⟩ := hn
  simp [calculate_next_node, mkHNode]

theorem hybrid_expand_inv {M : MapCap} {cur : HNode} {closed1 : List (ℤ × HNode)}
    {m : ℕ} {opn : List (ℤ × HNode)} {nxt : HNode}
    (hn : ChainOKn closed1 m nxt.parent_node_index)
    (h1 : ∀ e ∈ opn, ChainOKn closed1 m (e.2).parent_node_index)
    (h2 : ∀ k ∈ dictKeys opn, dictLookup k closed1 = (none : Option HNode)) :
    (∀ e ∈ hybrid_expand M cur closed1 opn nxt,
        ChainOKn closed1 m (e.2).parent_node_index) ∧
    (∀ k ∈ dictKeys (hybrid_expand M cur closed1 opn nxt),
        dictLookup k closed1 = (none : Option HNode)) := by
  unfold hybrid_expand
  split
  case isFalse => exact ⟨h1, h2⟩
  case isTrue =>
    by_cases hcl :
        (dictLookup (M.gridIndex nxt.discrete_x nxt.discrete_y) closed1).isSome
    · rw [if_pos hcl]
      exact ⟨h1, h2⟩
    · rw [if_neg hcl]
      have hclnone : dictLookup (M.gridIndex nxt.discrete_x nxt.discrete_y) closed1
          = none := Option.not_isSome_iff_eq_none.1 hcl
      have hsetcase :
          (∀ e ∈ dictSet (M.gridIndex nxt.discrete_x nxt.discrete_y) nxt opn,
              ChainOKn closed1 m (e.2).parent_node_index) ∧
          (∀ k ∈ dictKeys (dictSet (M.gridIndex nxt.discrete_x nxt.discrete_y) nxt opn),
              dictLookup k closed1 = (none : Option HNode)) := by
        constructor
        · intro e he
          rcases mem_dictSet he with rfl | hmem
          · exact hn
          · exact h1 e hmem
        · intro k hk
          rcases mem_keys_dictSet hk with rfl | hmem
          · exact hclnone
          · exact h2 k hmem
      cases hlk : dictLookup (M.gridIndex nxt.discrete_x nxt.discrete_y) opn with
      | none =>
        simp only [hlk]
        exact hsetcase
      | some old =>
        simp only [hlk]
        split
        · exact hsetcase
        · exact ⟨h1, h2⟩

theorem hybrid_expand_fold_inv {M : MapCap} {cur : HNode}
    {closed1 : List (ℤ × HNode)} {m : ℕ} :
    ∀ (nexts : List HNode) (opn : List (ℤ × HNode)),
    (∀ nxt ∈ nexts, ChainOKn closed1 m nxt.parent_node_index) →
    (∀ e ∈ opn, ChainOKn closed1 m (e.2).parent_node_index) →
    (∀ k ∈ dictKeys opn, dictLookup k closed1 = (none : Option HNode)) →
    (∀ e ∈ nexts.foldl (hybrid_expand M cur closed1) opn,
        ChainOKn closed1 m (e.2).parent_node_index) ∧
    (∀ k ∈ dictKeys (nexts.foldl (hybrid_expand M cur closed1) opn),
        dictLookup k closed1 = (none : Option HNode)) := by
  intro nexts
  induction nexts with
  | nil => intro opn _ h1 h2; exact ⟨h1, h2⟩
  | cons a as ih =>
    intro opn hn h1 h2
    have step := @hybrid_expand_inv M cur closed1 m opn a
      (hn a (by simp)) h1 h2
    simpa using ih (hybrid_expand M cur closed1 opn a)
      (fun nxt hx => hn nxt (by simp [hx])) step.1 step.2

theorem searchLoop_result_form (M : MapCap) (goal : Pose2) :
    ∀ (fuel : ℕ) (opn closed : List (ℤ × HNode))
      (res : Except Unit (Bool × ℝ × List (ℝ × ℝ))),
      HInv opn closed → searchLoop M goal fuel opn closed = some res →
      ∃ r, res = .ok r ∧
        (r = (false, 0, []) ∨
         (r.1 = true ∧ r.2.1 = calculate_trajectory_distance r.2.2 ∧ r.2.2 ≠ [])) := by
  intro fuel
  induction fuel with
  | zero =>
    intro opn closed res _ hres
    simp [searchLoop] at hres
  | succ fuel ih =>
    intro opn closed res hinv hres
    match opn with
    | [] =>
      simp only [searchLoop, Option.some.injEq] at hres
      exact ⟨(false, 0, []), hres.symm, Or.inl rfl⟩
    | e :: es =>
      simp only [searchLoop] at hres
      set pick := dictArgmin (fun n => n.cost + calculate_heuristic_cost goal n) e es
        with hpick
      have hmem : pick ∈ e :: es := dictArgmin_mem _ e es
      by_cases hd : calculate_distance_to_end pick.2.pose goal ≤ 1
      · rw [if_pos hd] at hres
        have hchain : ChainOKn closed closed.length (pick.2).parent_node_index :=
          hinv.1 pick hmem
        obtain ⟨l, hl⟩ := chainPoints_isSome hchain closed.length le_rfl
        rw [process_route, hl] at hres
        simp only [Option.map_some', Option.some.injEq] at hres
        refine ⟨(true, calculate_trajectory_distance
          (((pick.2.pose.x, pick.2.pose.y) :: l).reverse),
          ((pick.2.pose.x, pick.2.pose.y) :: l).reverse), hres.symm, Or.inr ?_⟩
        refine ⟨rfl, rfl, ?_⟩
        intro hc
        simpa using congrArg List.length hc
      · rw [if_neg hd] at hres
        have hfresh : dictLookup pick.1 closed = (none : Option HNode) :=
          hinv.2 pick.1 (List.mem_map.2 ⟨pick, hmem, rfl⟩)
        have hlen : (dictSet pick.1 pick.2 closed).length = closed.length + 1 :=
          dictSet_length_fresh hfresh pick.2
        have hinv1 : HInv
            ((hybrid_successors pick.2 pick.1).foldl
              (hybrid_expand M pick.2 (dictSet pick.1 pick.2 closed))
              (dictErase pick.1 (e :: es)))
            (dictSet pick.1 pick.2 closed) := by
          have hopen1C : ∀ e' ∈ dictErase pick.1 (e :: es),
              ChainOKn (dictSet pick.1 pick.2 closed)
                ((dictSet pick.1 pick.2 closed).length) (e'.2).parent_node_index := by
            intro e' he'
            have hin := (mem_dictErase he').1
            have := hinv.1 e' hin
            rw [hlen]
            exact ChainOKn_mono (ChainOKn_dictSet_fresh hfresh this) (Nat.le_succ _)
          have hopen1K : ∀ k ∈ dictKeys (dictErase pick.1 (e :: es)),
              dictLookup k (dictSet pick.1 pick.2 closed) = (none : Option HNode) := by
            intro k hk
            obtain ⟨e', he', rfl⟩ := List.mem_map.1 hk
            have h1 := mem_dictErase he'
            rw [dictLookup_dictSet_ne h1.2]
            exact hinv.2 e'.1 (List.mem_map.2 ⟨e', h1.1, rfl⟩)
          have hnextsC : ∀ nxt ∈ hybrid_successors pick.2 pick.1,
              ChainOKn (dictSet pick.1 pick.2 closed)
                ((dictSet pick.1 pick.2 closed).length) (nxt.parent_node_index) := by
            intro nxt hx
            rw [hybrid_successors_parent nxt hx, hlen]
            exact Or.inr ⟨pick.2, dictLookup_dictSet_self _ _ _,
              ChainOKn_dictSet_fresh hfresh (hinv.1 pick hmem)⟩
          have := @hybrid_expand_fold_inv M pick.2
            (dictSet pick.1 pick.2 closed)
            ((dictSet pick.1 pick.2 closed).length)
            (hybrid_successors pick.2 pick.1) (dictErase pick.1 (e :: es))
            hnextsC hopen1C hopen1K
          exact ⟨this.1, this.2⟩
        exact ih _ _ res hinv1 hres

/-- C8: from the planner's entry state, the Hybrid A* search (run with any
fuel) never raises and never returns a partial result: any returned value is
either the exact failure sentinel `(False, 0, [])` or a success
`(True, total, trajectory)` whose reported total is the trajectory's own
accumulated distance and whose trajectory is non-empty; moreover the loop
returns the failure sentinel exactly when the open set is empty, and an
iteration returns success exactly when the popped (argmin) node's distance to
the goal is ≤ 1.0, as the step equation shows. -/
theorem c8_hybrid_search_result_forms :
    (∀ (M : MapCap) (s g : Pose2) (fuel : ℕ)
        (res : Except Unit (Bool × ℝ × List (ℝ × ℝ))),
        hybrid_search_route M s g fuel = some res →
        ∃ r, res = .ok r ∧
          (r = (false, 0, []) ∨
           (r.1 = true ∧ r.2.1 = calculate_trajectory_distance r.2.2 ∧ r.2.2 ≠ []))) ∧
    (∀ (M : MapCap) (g : Pose2) (fuel : ℕ) (closed : List (ℤ × HNode)),
        searchLoop M g (fuel + 1) [] closed = some (.ok (false, 0, []))) ∧
    (∀ (M : MapCap) (g : Pose2) (fuel : ℕ) (e : ℤ × HNode)
        (es closed : List (ℤ × HNode)),
        searchLoop M g (fuel + 1) (e :: es) closed =
          (let pick := dictArgmin (fun n => n.cost + calculate_heuristic_cost g n) e es
           if calculate_distance_to_end pick.2.pose g ≤ 1 then
             match process_route closed pick.2 with
             | none => some (.error ())
             | some traj => some (.ok (true, calculate_trajectory_distance traj, traj))
           else
             searchLoop M g fuel
               ((hybrid_successors pick.2 pick.1).foldl
                 (hybrid_expand M pick.2 (dictSet pick.1 pick.2 closed))
                 (dictErase pick.1 (e :: es)))
               (dictSet pick.1 pick.2 closed))) := by
  refine ⟨?_, ?_, ?_⟩
  · intro M s g fuel res hres
    refine searchLoop_result_form M g fuel _ [] res ⟨?_, ?_⟩ hres
    · intro e he
      simp only [List.mem_singleton] at he
      subst he
      simp [mkHNode, ChainOKn]
    · intro k _
      rfl
  · intro M g fuel closed
    rfl
  · intro M g fuel e es closed
    rfl

/-- Witness for C8: with a trivially free map and start = goal = (2, 2), one
unit of fuel already returns, and the returned value has the success form. -/
theorem c8_hybrid_search_result_forms_witness :
    hybrid_search_route trivialMap ⟨2, 2, 0⟩ ⟨2, 2, 0⟩ 1 =
      some (.ok (true, 0, [((2 : ℝ), (2 : ℝ))])) ∧
    ∃ r, (Except.ok (true, (0 : ℝ), [((2 : ℝ), (2 : ℝ))]) : Except Unit _) = .ok r ∧
      (r = (false, 0, []) ∨
       (r.1 = true ∧ r.2.1 = calculate_trajectory_distance r.2.2 ∧ r.2.2 ≠ [])) := by
  have hd : calculate_distance_to_end (⟨2, 2, 0⟩ : Pose2) (⟨2, 2, 0⟩ : Pose2) ≤ 1 := by
    simp [calculate_distance_to_end]
  have heq : hybrid_search_route trivialMap ⟨2, 2, 0⟩ ⟨2, 2, 0⟩ 1 =
      some (.ok (true, 0, [((2 : ℝ), (2 : ℝ))])) := by
    simp only [hybrid_search_route, searchLoop, mkHNode, trivialMap, dictArgmin,
      List.foldl_nil, process_route, List.length_nil, chainPoints, if_pos hd]
    norm_num [calculate_trajectory_distance]
  exact ⟨heq, c8_hybrid_search_result_forms.1 trivialMap ⟨2, 2, 0⟩ ⟨2, 2, 0⟩ 1 _ heq⟩

/-- C1: expanding a Hybrid A* node with chord length `L` and steering `s`
produces a successor with `theta = normalize(theta + L/wheelbase * tan s)`,
`x = x + L*cos theta`, `y = y + L*sin theta`, and accumulated cost equal to
the parent's cost plus `L`. -/
theorem c1_hybrid_kinematic_expansion (current : HNode) (idx : ℤ) (L s : ℝ) :
    (calculate_next_node current idx L s).pose.theta =
      change_radians_range (current.pose.theta + L / wheelbase * Real.tan s) ∧
    (calculate_next_node current idx L s).pose.x =
      current.pose.x + L * Real.cos ((calculate_next_node current idx L s).pose.theta) ∧
    (calculate_next_node current idx L s).pose.y =
      current.pose.y + L * Real.sin ((calculate_next_node current idx L s).pose.theta) ∧
    (calculate_next_node current idx L s).cost = current.cost + L := by
  refine ⟨?_, rfl, rfl, rfl⟩
  simp only [calculate_next_node, mkHNode]
  congr 1
  ring

theorem smoothLoop_first_nonempty {collFree : TNode → TNode → Bool}
    {pathX pathY : List ℝ} :
    ∀ (fuel i : ℕ) (accX accY a b : List ℝ),
      smoothLoop collFree pathX pathY fuel i accX accY = some (a, b) →
      accX ≠ [] → a ≠ [] := by
  intro fuel
  induction fuel with
  | zero =>
    intro i accX accY a b h
    simp [smoothLoop] at h
  | succ f ih =>
    intro i accX accY a b h hne
    rw [smoothLoop] at h
    by_cases hi : i < pathX.length - 1
    · rw [if_pos hi] at h
      cases hscan : smoothScan collFree pathX pathY i with
      | some j =>
        rw [hscan] at h
        exact ih j _ _ a b h (by simp)
      | none =>
        rw [hscan] at h
        exact ih i _ _ a b h hne
    · rw [if_neg hi] at h
      simp only [Option.some.injEq, Prod.mk.injEq] at h
      rw [← h.1]
      exact hne

/-- C2: the tree planner returns the empty quadruple on seed-path failure,
returns it when the growth loop ends without the goal having acquired a
parent, returns it deterministically whenever the iteration budget is zero
(`samples = []` models `max_iter = 0`), and conversely any returned value is
either that failure quadruple or has a non-empty seed path and non-empty
optimized path. -/
theorem c2_trrt_failure_empty :
    (∀ (P : RRTPrims) (sr sx sy gx gy : ℝ) (seedX seedY : List ℝ)
        (samples : List TNode) (cf sf : ℕ),
        seedX = [] ∨ seedY = [] →
        trrt_search_route P sr sx sy gx gy seedX seedY samples cf sf =
          some ([], [], [], [])) ∧
    (∀ (P : RRTPrims) (sr sx sy gx gy : ℝ) (seedX seedY : List ℝ)
        (samples : List TNode) (cf sf : ℕ),
        (trrtLoop P (initTRRT sr sx sy gx gy) samples).goal.parent = none →
        trrt_search_route P sr sx sy gx gy seedX seedY samples cf sf =
          some ([], [], [], [])) ∧
    (∀ (P : RRTPrims) (sr sx sy gx gy : ℝ) (seedX seedY : List ℝ) (cf sf : ℕ),
        trrt_search_route P sr sx sy gx gy seedX seedY [] cf sf =
          some ([], [], [], [])) ∧
    (∀ (P : RRTPrims) (sr sx sy gx gy : ℝ) (seedX seedY : List ℝ)
        (samples : List TNode) (cf sf : ℕ)
        (r : List ℝ × List ℝ × List ℝ × List ℝ),
        trrt_search_route P sr sx sy gx gy seedX seedY samples cf sf = some r →
        r = ([], [], [], []) ∨ (r.1 ≠ [] ∧ r.2.2.1 ≠ [])) := by
  have hb : ∀ (P : RRTPrims) (sr sx sy gx gy : ℝ) (seedX seedY : List ℝ)
      (samples : List TNode) (cf sf : ℕ),
      (trrtLoop P (initTRRT sr sx sy gx gy) samples).goal.parent = none →
      trrt_search_route P sr sx sy gx gy seedX seedY samples cf sf =
        some ([], [], [], []) := by
    intro P sr sx sy gx gy seedX seedY samples cf sf hpar
    unfold trrt_search_route
    by_cases hseed : seedX = [] ∨ seedY = []
    · rw [if_pos hseed]
    · rw [if_neg hseed]
      simp only [hpar]
  refine ⟨?_, hb, ?_, ?_⟩
  · intro P sr sx sy gx gy seedX seedY samples cf sf h
    unfold trrt_search_route
    rw [if_pos h]
  · intro P sr sx sy gx gy seedX seedY cf sf
    exact hb P sr sx sy gx gy seedX seedY [] cf sf rfl
  · intro P sr sx sy gx gy seedX seedY samples cf sf r hr
    unfold trrt_search_route at hr
    by_cases hseed : seedX = [] ∨ seedY = []
    · rw [if_pos hseed] at hr
      exact Or.inl (by injection hr with h; exact h.symm)
    · rw [if_neg hseed] at hr
      cases hpar : (trrtLoop P (initTRRT sr sx sy gx gy) samples).goal.parent with
      | none =>
        simp only [hpar] at hr
        exact Or.inl (by injection hr with h; exact h.symm)
      | some q =>
        simp only [hpar] at hr
        cases hc : generate_final_course
            (trrtLoop P (initTRRT sr sx sy gx gy) samples) cf with
        | none => simp [hc] at hr
        | some rxy =>
          obtain ⟨rx1, ry1⟩ := rxy
          simp only [hc] at hr
          cases hs : smooth_path P.is_collision_free sf rx1 ry1 with
          | none => simp [hs] at hr
          | some ab =>
            obtain ⟨a, b⟩ := ab
            simp only [hs] at hr
            injection hr with h
            refine Or.inr ?_
            rw [← h]
            refine ⟨fun hx => hseed (Or.inl hx), ?_⟩
            rw [smooth_path] at hs
            exact smoothLoop_first_nonempty sf 0 _ _ a b hs (by simp)

/-- Witness for C2: with trivial primitives, an empty seed path fails
immediately; with a non-empty seed path and a zero iteration budget the goal
is never parented and the planner returns the empty quadruple, which the
converse conjunct classifies as the failure form. -/
theorem c2_trrt_failure_empty_witness :
    trrt_search_route trivialPrims 1 0 0 1 1 [] [] [] 1 1 = some ([], [], [], []) ∧
    trrt_search_route trivialPrims 1 0 0 1 1 [0] [0] [] 1 1 = some ([], [], [], []) ∧
    ((([], [], [], []) : List ℝ × List ℝ × List ℝ × List ℝ) = ([], [], [], []) ∨
      ((([], [], [], []) : List ℝ × List ℝ × List ℝ × List ℝ).1 ≠ [] ∧
       (([], [], [], []) : List ℝ × List ℝ × List ℝ × List ℝ).2.2.1 ≠ [])) := by
  have h1 := c2_trrt_failure_empty.1 trivialPrims 1 0 0 1 1 [] [] [] 1 1 (Or.inl rfl)
  have hp : (trrtLoop trivialPrims (initTRRT 1 0 0 1 1) []).goal.parent = none := rfl
  have h2 := c2_trrt_failure_empty.2.1 trivialPrims 1 0 0 1 1 [0] [0] [] 1 1 hp
  have h4 := c2_trrt_failure_empty.2.2.2 trivialPrims 1 0 0 1 1 [0] [0] [] 1 1
    ([], [], [], []) h2
  exact ⟨h1, h2, h4⟩

/-- C4 counterexample: at the start of the search `c_best` is `inf`, not
`c_min`, and the adaptive neighbor radius is therefore infinite — not
`search_radius` — already for `search_radius = 10`, start `(0, 0)`,
goal `(3, 0)`. -/
theorem c4_counterexample_initial_radius :
    (initTRRT 10 0 0 3 0).cBest ≠ (((initTRRT 10 0 0 3 0).cMin : ℝ) : EReal) ∧
    adaptiveRadius (initTRRT 10 0 0 3 0) ≠ (((10 : ℝ)) : EReal) := by
  have hcmin : (initTRRT 10 0 0 3 0).cMin = 3 := by
    show euclid 0 0 3 0 = 3
    rw [euclid]
    rw [show ((0 : ℝ) - 3) ^ 2 + (0 - 0) ^ 2 = 3 ^ 2 by norm_num]
    exact Real.sqrt_sq (by norm_num)
  have hrad : adaptiveRadius (initTRRT 10 0 0 3 0) = ⊤ := by
    rw [adaptiveRadius]
    have h1 : (initTRRT 10 0 0 3 0).cBest = ⊤ := rfl
    rw [h1, hcmin]
    rw [EReal.top_div_of_pos_ne_top (by norm_num) (EReal.coe_ne_top 3)]
    show ((10 : ℝ) : EReal) * ⊤ = ⊤
    exact EReal.coe_mul_top_of_pos (by norm_num)
  constructor
  · rw [show (initTRRT 10 0 0 3 0).cBest = ⊤ from rfl]
    exact EReal.top_ne_coe _
  · rw [hrad]
    exact EReal.top_ne_coe _

/-- C4 amended: the neighbor set collected in the growth step consists of
exactly the existing tree nodes within `search_radius * (c_best / c_min)` of
the new node; but since `c_best` is initialized to `inf` (not `c_min`), that
radius is infinite — not `search_radius` — until a goal connection sets
`c_best`, so at the start every existing tree node is collected. -/
theorem c4_near_set_exact_and_infinite_at_start :
    (∀ (st : TRRTState) (newNode : TNode) (i : ℕ),
        i ∈ nearIndices st newNode ↔
          i < st.nodes.length ∧
          ((euclid (st.nodes.getD i defaultTNode).x
              (st.nodes.getD i defaultTNode).y newNode.x newNode.y : ℝ) : EReal) ≤
            adaptiveRadius st) ∧
    (∀ st : TRRTState, st.cBest = ⊤ → 0 < st.cMin → 0 < st.searchRadius →
        adaptiveRadius st = ⊤) ∧
    (∀ (st : TRRTState) (newNode : TNode), st.cBest = ⊤ → 0 < st.cMin →
        0 < st.searchRadius → ∀ i, i < st.nodes.length →
        i ∈ nearIndices st newNode) := by
  have hmem : ∀ (st : TRRTState) (newNode : TNode) (i : ℕ),
      i ∈ nearIndices st newNode ↔
        i < st.nodes.length ∧
        ((euclid (st.nodes.getD i defaultTNode).x
            (st.nodes.getD i defaultTNode).y newNode.x newNode.y : ℝ) : EReal) ≤
          adaptiveRadius st := by
    intro st newNode i
    rw [nearIndices, List.mem_filter, List.mem_range]
    simp
  have htop : ∀ st : TRRTState, st.cBest = ⊤ → 0 < st.cMin → 0 < st.searchRadius →
      adaptiveRadius st = ⊤ := by
    intro st hb hc hs
    rw [adaptiveRadius, hb]
    rw [EReal.top_div_of_pos_ne_top (by exact_mod_cast hc) (EReal.coe_ne_top _)]
    exact EReal.coe_mul_top_of_pos hs
  refine ⟨hmem, htop, ?_⟩
  intro st newNode hb hc hs i hi
  rw [hmem]
  exact ⟨hi, by rw [htop st hb hc hs]; exact le_top⟩

/-- Witness for C4's amended theorem: in the freshly initialized planner
(`search_radius = 10`, start `(0,0)`, goal `(3,0)`), the start node (index 0)
is within the adaptive radius of any new node. -/
theorem c4_near_set_witness :
    (0 : ℝ) < (initTRRT 10 0 0 3 0).cMin ∧
    0 ∈ nearIndices (initTRRT 10 0 0 3 0) (mkTNode 50 50 0) := by
  have hcmin : (initTRRT 10 0 0 3 0).cMin = 3 := by
    show euclid 0 0 3 0 = 3
    rw [euclid]
    rw [show ((0 : ℝ) - 3) ^ 2 + (0 - 0) ^ 2 = 3 ^ 2 by norm_num]
    exact Real.sqrt_sq (by norm_num)
  have hpos : (0 : ℝ) < (initTRRT 10 0 0 3 0).cMin := by
    rw [hcmin]
    norm_num
  refine ⟨hpos, ?_⟩
  exact c4_near_set_exact_and_infinite_at_start.2.2 (initTRRT 10 0 0 3 0)
    (mkTNode 50 50 0) rfl hpos (by norm_num [initTRRT]) 0 (by simp [initTRRT])

/-- C5 (code bug): the greedy shortcutter has no stall guard. On a two-point
path whose connecting segment the collision query rejects, the inner scan
finds no shortcut, the index never advances, and the loop never returns —
for every fuel the fuel-indexed loop is still running (`none`), i.e. the
Python `while` loop runs forever instead of raising a
`SmoothingNonTermination` error. -/
theorem c5_smooth_path_stalls_forever :
    ∀ fuel : ℕ,
      smooth_path (fun _ _ => false) fuel [0, 1] [0, 0] = none := by
  have key : ∀ (fuel : ℕ) (accX accY : List ℝ),
      smoothLoop (fun _ _ => false) [0, 1] [0, 0] fuel 0 accX accY = none := by
    intro fuel
    induction fuel with
    | zero => intro accX accY; rfl
    | succ f ih =>
      intro accX accY
      rw [smoothLoop]
      have hscan : smoothScan (fun _ _ => false) [0, 1] [0, 0] 0 = none := by
        simp [smoothScan]
      rw [if_pos (by norm_num), hscan]
      exact ih accX accY
  intro fuel
  rw [smooth_path]
  exact key fuel _ _

/-- C6 (code bug): a zero-length corridor segment — here produced by
`narrow_sample` from a seed path with two coincident consecutive points —
makes `is_within_region` divide by `hypot = 0`: Python raises
`ZeroDivisionError` instead of guarding the degenerate segment and treating
it as "no crossing". -/
theorem c6_zero_length_segment_raises :
    is_within_region 0 0 (narrow_sample 10 [1, 1] [2, 2]) = .error () := by
  have hregion : narrow_sample 10 [1, 1] [2, 2] = [(1, 2, 1, 2, 5)] := by
    rw [narrow_sample]
    norm_num
    rw [show List.range 1 = [0] from rfl]
    simp [List.getD]
  rw [hregion]
  rw [is_within_region]
  rw [if_pos]
  rw [euclid]
  rw [show ((2 : ℝ) - 2 - 0) ^ 2 + ((1 : ℝ) - 1 - 0) ^ 2 = 0 by norm_num]
  exact Real.sqrt_zero

theorem foldl_of_cond_false {β γ : Type} (f : γ → β → γ) (p : β → Bool)
    (hstep : ∀ acc c, p c = false → f acc c = acc) :
    ∀ (l : List β) (acc : γ), (∀ c ∈ l, p c = false) → l.foldl f acc = acc := by
  intro l
  induction l with
  | nil => intro acc _; rfl
  | cons a as ih =>
    intro acc h
    rw [List.foldl_cons, hstep acc a (h a (by simp))]
    exact ih acc (fun c hc => h c (by simp [hc]))

theorem rolloutStates_length (step : CState → ℝ × ℝ → CState) :
    ∀ (n : ℕ) (s : CState) (c : ℝ × ℝ), (rolloutStates step n s c).length = n := by
  intro n
  induction n with
  | zero => intro s c; rfl
  | succ m ih =>
    intro s c
    rw [rolloutStates, List.length_cons, ih]

/-- C3: when every one of the 49 grid combinations fails the collision
check, the `mpc_basic` optimizer returns the fixed default control
`(0.1, 0.0)` (this variant's return carries no rollout), and the
`mpc_controller` optimizer returns `(0.5, 0.0)` together with the unchecked
rollout of that default — which has exactly `horizon` states and is
therefore non-empty for any positive horizon, so neither variant ever
returns a null/undefined control. -/
theorem c3_all_collide_default_control :
    (∀ (M : MapCap) (wb dt : ℝ) (horizon : ℕ) (cur : CState) (ref : List CState),
        (∀ c ∈ controlGrid,
          (truncTo ref.length (rolloutStates (predict wb dt) horizon cur c)).all
            (is_collision_free_basic M) = false) →
        optimize_control_basic M wb dt horizon cur ref = (0.1, 0)) ∧
    (∀ (A : CState → ℝ × ℝ → CState) (CF : CState → CState → Bool) (horizon : ℕ)
        (cur : CState) (ref : List CState),
        (∀ c ∈ controlGrid,
          (truncTo ref.length (rolloutStates A horizon cur c)).all
            (CF ((rolloutStates A horizon cur c).getLastD cur)) = false) →
        optimize_control_ctrl A CF horizon cur ref =
          ((0.5, 0), rolloutStates A horizon cur (0.5, 0))) ∧
    (∀ (A : CState → ℝ × ℝ → CState) (horizon : ℕ) (cur : CState) (c : ℝ × ℝ),
        (rolloutStates A horizon cur c).length = horizon) ∧
    (∀ (A : CState → ℝ × ℝ → CState) (horizon : ℕ) (cur : CState) (c : ℝ × ℝ),
        1 ≤ horizon → rolloutStates A horizon cur c ≠ []) := by
  refine ⟨?_, ?_, rolloutStates_length, ?_⟩
  · intro M wb dt horizon cur ref h
    rw [optimize_control_basic]
    rw [foldl_of_cond_false _
      (fun c => (truncTo ref.length (rolloutStates (predict wb dt) horizon cur c)).all
        (is_collision_free_basic M))
      (by intro acc c hc; simp only [hc]; simp) controlGrid (none, ⊤) h]
  · intro A CF horizon cur ref h
    rw [optimize_control_ctrl]
    rw [foldl_of_cond_false _
      (fun c => (truncTo ref.length (rolloutStates A horizon cur c)).all
        (CF ((rolloutStates A horizon cur c).getLastD cur)))
      (by intro acc c hc; simp only [hc]; simp) controlGrid (none, ⊤) h]
  · intro A horizon cur c h hc
    have := rolloutStates_length A horizon cur c
    rw [hc] at this
    simp at this
    omega

/-- Witness for C3: with a map (resp. collision query) that rejects
everything, horizon 1 and a one-row reference, every grid combination's
rollout fails the check, and the optimizers return their documented
defaults; the fallback rollout is non-empty. -/
theorem c3_all_collide_default_control_witness :
    optimize_control_basic blockedMap 2.5 0.1 1 defaultCState [defaultCState] =
      (0.1, 0) ∧
    optimize_control_ctrl (fun s _ => s) (fun _ _ => false) 1 defaultCState
      [defaultCState] =
      ((0.5, 0), rolloutStates (fun s _ => s) 1 defaultCState (0.5, 0)) ∧
    rolloutStates (fun s _ => s) 1 defaultCState (0.5, 0) ≠ [] := by
  refine ⟨?_, ?_, ?_⟩
  · refine c3_all_collide_default_control.1 blockedMap 2.5 0.1 1 defaultCState
      [defaultCState] ?_
    intro c _
    rw [show rolloutStates (predict 2.5 0.1) 1 defaultCState c =
        [predict 2.5 0.1 defaultCState c] from rfl]
    rw [truncTo]
    simp [is_collision_free_basic, blockedMap]
  · refine c3_all_collide_default_control.2.1 (fun s _ => s) (fun _ _ => false) 1
      defaultCState [defaultCState] ?_
    intro c _
    rw [show rolloutStates (fun (s : CState) (_ : ℝ × ℝ) => s) 1 defaultCState c =
        [defaultCState] from rfl]
    rw [truncTo]
    simp
  · exact c3_all_collide_default_control.2.2.2 (fun s _ => s) 1 defaultCState
      (0.5, 0) le_rfl

theorem argminIdx_fold_bound (ds : List ℝ) :
    ∀ (acc : ℕ × ℝ × ℕ), acc.1 < acc.2.2 →
      (ds.foldl
        (fun (acc : ℕ × ℝ × ℕ) v =>
          if v < acc.2.1 then (acc.2.2, v, acc.2.2 + 1)
          else (acc.1, acc.2.1, acc.2.2 + 1)) acc).1 <
      (ds.foldl
        (fun (acc : ℕ × ℝ × ℕ) v =>
          if v < acc.2.1 then (acc.2.2, v, acc.2.2 + 1)
          else (acc.1, acc.2.1, acc.2.2 + 1)) acc).2.2 ∧
      (ds.foldl
        (fun (acc : ℕ × ℝ × ℕ) v =>
          if v < acc.2.1 then (acc.2.2, v, acc.2.2 + 1)
          else (acc.1, acc.2.1, acc.2.2 + 1)) acc).2.2 = acc.2.2 + ds.length := by
  induction ds with
  | nil => intro acc h; exact ⟨h, rfl⟩
  | cons d ds ih =>
    intro acc h
    rw [List.foldl_cons]
    have hstep : (if d < acc.2.1 then (acc.2.2, d, acc.2.2 + 1)
        else (acc.1, acc.2.1, acc.2.2 + 1)).1 <
        (if d < acc.2.1 then (acc.2.2, d, acc.2.2 + 1)
        else (acc.1, acc.2.1, acc.2.2 + 1)).2.2 := by
      split
      · simp
      · simp only []
        omega
    obtain ⟨h1, h2⟩ := ih _ hstep
    refine ⟨h1, ?_⟩
    rw [h2]
    have : (if d < acc.2.1 then (acc.2.2, d, acc.2.2 + 1)
        else (acc.1, acc.2.1, acc.2.2 + 1)).2.2 = acc.2.2 + 1 := by
      split
      · rfl
      · rfl
    rw [this, List.length_cons]
    omega

theorem argminIdx_lt_length {l : List ℝ} (h : l ≠ []) : argminIdx l < l.length := by
  match l with
  | [] => exact absurd rfl h
  | d :: ds =>
    rw [argminIdx]
    obtain ⟨h1, h2⟩ := argminIdx_fold_bound ds (0, d, 1) (by norm_num)
    rw [show ((0 : ℕ), d, (1 : ℕ)).2.2 = 1 from rfl] at h2
    rw [List.length_cons]
    omega

/-- C7 counterexample: the bounded-window nearest-point re-anchoring CAN
regress. With reference trajectory `[(0,0), (10,0)]`, previous index 1,
window 10 and the vehicle at `(0, 0)`, the produced index is 0 < 1. -/
theorem c7_counterexample_index_regression :
    updateRefIndex [defaultCState, ⟨10, 0, 0, 0⟩] 10 1 0 0 < 1 := by
  have hno : ¬ (euclid 10 0 0 0 < euclid defaultCState.x defaultCState.y 0 0) := by
    have h1 : euclid defaultCState.x defaultCState.y 0 0 = 0 := by
      simp [euclid, defaultCState]
    rw [h1]
    exact not_lt.2 (Real.sqrt_nonneg _)
  rw [updateRefIndex]
  norm_num
  rw [show List.range' 0 2 = [0, 1] from rfl]
  simp only [List.map_cons, List.map_nil, List.getD]
  norm_num [argminIdx, hno]

/-- C7 amended: the re-anchored index is not monotone; what holds is that it
always stays inside the clamped `±window` search interval around the
previous index, so any regression is bounded by the window size (and the
index never exceeds the clamped upper end). -/
theorem c7_amended_window_bounds (refTraj : List CState) (w prevIdx : ℕ)
    (px py : ℝ) (_hne : refTraj ≠ []) (hprev : prevIdx ≤ refTraj.length - 1) :
    prevIdx - w ≤ updateRefIndex refTraj w prevIdx px py ∧
    updateRefIndex refTraj w prevIdx px py ≤
      min (prevIdx + w) (refTraj.length - 1) := by
  rw [updateRefIndex]
  have hse : prevIdx - w ≤ min (prevIdx + w) (refTraj.length - 1) := by
    omega
  have hlen :
      ((List.range' (prevIdx - w)
        (min (prevIdx + w) (refTraj.length - 1) + 1 - (prevIdx - w))).map fun i =>
          euclid (refTraj.getD i defaultCState).x (refTraj.getD i defaultCState).y
            px py).length =
      min (prevIdx + w) (refTraj.length - 1) + 1 - (prevIdx - w) := by
    rw [List.length_map, List.length_range']
  have hlt := argminIdx_lt_length (l :=
    (List.range' (prevIdx - w)
      (min (prevIdx + w) (refTraj.length - 1) + 1 - (prevIdx - w))).map fun i =>
        euclid (refTraj.getD i defaultCState).x (refTraj.getD i defaultCState).y px py)
    (by
      intro hc
      have := congrArg List.length hc
      rw [hlen] at this
      simp at this
      omega)
  rw [hlen] at hlt
  constructor
  · omega
  · omega

/-- Witness for C7's amended theorem: on the concrete regressing input the
updated index 0 indeed lies in the clamped window `[0, 1]`. -/
theorem c7_amended_window_bounds_witness :
    1 - 10 ≤ updateRefIndex [defaultCState, ⟨10, 0, 0, 0⟩] 10 1 0 0 ∧
    updateRefIndex [defaultCState, ⟨10, 0, 0, 0⟩] 10 1 0 0 ≤
      min (1 + 10) ([defaultCState, (⟨10, 0, 0, 0⟩ : CState)].length - 1) :=
  c7_amended_window_bounds [defaultCState, ⟨10, 0, 0, 0⟩] 10 1 0 0
    (by simp) (by simp)

theorem followLoop_exits_only_at_goal {A : CState → ℝ × ℝ → CState}
    {CF : CState → CState → Bool} {G : CState → ℝ × ℝ → Bool} {horizon : ℕ}
    {refTraj : List CState} {goal : ℝ × ℝ} :
    ∀ (fuel : ℕ) (cur : CState) (refIdx : ℕ) (traj : List CState)
      (steers accels : List ℝ) (out : CState × List CState × List ℝ × List ℝ),
      followLoop A CF G horizon refTraj goal fuel cur refIdx traj steers accels =
        some out →
      G out.1 goal = true := by
  intro fuel
  induction fuel with
  | zero =>
    intro cur refIdx traj steers accels out h
    simp [followLoop] at h
  | succ f ih =>
    intro cur refIdx traj steers accels out h
    rw [followLoop] at h
    by_cases hg : G cur goal
    · rw [if_pos hg] at h
      injection h with h
      rw [← h]
      exact hg
    · rw [if_neg hg] at h
      exact ih _ _ _ _ _ out h

/-- C10 (implicit claim): whenever the controller-variant
`follow_trajectory` returns, the returned `reached` flag is `True` and the
final snap-to-goal branch was not executed: the loop can only exit through
the goal-proximity test, so the post-loop re-test succeeds and the returned
trajectory is exactly the loop's trajectory, with no snapped state
appended. -/
theorem c10_follow_trajectory_reached_no_snap
    (A : CState → ℝ × ℝ → CState) (CF : CState → CState → Bool)
    (G : CState → ℝ × ℝ → Bool) (horizon fuel : ℕ) (start : Pose2)
    (refTraj : List CState) (goal : ℝ × ℝ)
    (res : Bool × ℝ × List CState × List ℝ × List ℝ)
    (h : follow_trajectory A CF G horizon fuel start refTraj goal = some res) :
    res.1 = true ∧
    ∃ cur traj steers accels,
      followLoop A CF G horizon refTraj goal fuel
        ⟨start.x, start.y,
          calculate_angle start.x start.y (refTraj.getD 1 defaultCState).x
            (refTraj.getD 1 defaultCState).y, 0⟩ 0
        [⟨start.x, start.y,
          calculate_angle start.x start.y (refTraj.getD 1 defaultCState).x
            (refTraj.getD 1 defaultCState).y, 0⟩] [] [] =
        some (cur, traj, steers, accels) ∧
      G cur goal = true ∧
      res = (true, trajectory_distance_states traj, traj, steers, accels) := by
  rw [follow_trajectory] at h
  cases hl : followLoop A CF G horizon refTraj goal fuel
      ⟨start.x, start.y,
        calculate_angle start.x start.y (refTraj.getD 1 defaultCState).x
          (refTraj.getD 1 defaultCState).y, 0⟩ 0
      [⟨start.x, start.y,
        calculate_angle start.x start.y (refTraj.getD 1 defaultCState).x
          (refTraj.getD 1 defaultCState).y, 0⟩] [] [] with
  | none =>
    rw [hl] at h
    exact absurd h (by simp)
  | some out =>
    obtain ⟨cur, traj, steers, accels⟩ := out
    have hg : G cur goal = true :=
      followLoop_exits_only_at_goal fuel _ 0 _ [] [] (cur, traj, steers, accels) hl
    rw [hl] at h
    simp only [hg, if_true] at h
    injection h with h2
    refine ⟨by rw [← h2], cur, traj, steers, accels, rfl, hg, h2.symm⟩

/-- Witness for C10: with an always-true goal test the loop exits on entry;
the returned flag is `true` and the trajectory is the loop's own. -/
theorem c10_follow_trajectory_reached_no_snap_witness :
    ∃ res, follow_trajectory (fun s _ => s) (fun _ _ => true) (fun _ _ => true)
        1 1 ⟨0, 0, 0⟩ [defaultCState, defaultCState] (0, 0) = some res ∧
      res.1 = true := by
  refine ⟨_, rfl, ?_⟩
  exact (c10_follow_trajectory_reached_no_snap (fun s _ => s) (fun _ _ => true)
    (fun _ _ => true) 1 1 ⟨0, 0, 0⟩ [defaultCState, defaultCState] (0, 0) _ rfl).1

/-- C9: the angle-normalization function returns a value in `(-π, π]` for
every angle, and it is idempotent. -/
theorem c9_change_radians_range_Ioc_idem (θ : ℝ) :
    change_radians_range θ ∈ Set.Ioc (-Real.pi) Real.pi ∧
    change_radians_range (change_radians_range θ) = change_radians_range θ := by
  have hmk : ∀ a b : ℝ, (⟨a, b⟩ : ℂ) = (a : ℂ) + (b : ℂ) * Complex.I := by
    intro a b
    simp [Complex.ext_iff]
  have hrange : ∀ ψ : ℝ, change_radians_range ψ ∈ Set.Ioc (-Real.pi) Real.pi := by
    intro ψ
    exact ⟨Complex.neg_pi_lt_arg _, Complex.arg_le_pi _⟩
  have hfix : ∀ ψ : ℝ, ψ ∈ Set.Ioc (-Real.pi) Real.pi → change_radians_range ψ = ψ := by
    intro ψ hψ
    unfold change_radians_range atan2
    rw [hmk, Complex.ofReal_sin, Complex.ofReal_cos]
    exact Complex.arg_cos_add_sin_mul_I hψ
  exact ⟨hrange θ, hfix _ (hrange θ)⟩
